import Mathlib

/-!
Shallow embedding of the batching/flush scheduler implemented by
`useBatchedUpdates` in `src/hooks/useBatchedUpdates.ts`.

The hook owns four mutable refs (`batchQueueRef`, `batchTimeoutRef`,
`maxDelayTimeoutRef`, `batchStartTimeRef`) and exposes `addToBatch` and
`flushBatch`.  We model the refs as a record `SchedState`, the resolved
configuration as `BatchConfig`, and each operation as a pure function
`SchedState → SchedState × List (List T)` where the second component is the
list of batches handed to `onFlush` during that operation (empty or a
singleton).  Timer handles are modelled by the absolute deadline
(`Option Nat`): `setTimeout(cb, d)` at wall-clock time `now` stores
`some (now + d)`; `clearTimeout` + nulling the ref stores `none`.
`Date.now()` is the `now : Nat` argument threaded through the operations
(all `Date.now()` reads inside one synchronous call return the same tick).
All delays and timestamps in the source are integer millisecond counts, so
`Nat`/`Int` model the JavaScript numbers exactly on the ranges involved.
-/

namespace BatchedUpdates

/-- Resolved configuration of `useBatchedUpdates` (destructured defaults at
lines 50–56 of the source): `delay`, `maxDelay`, `maxBatchSize`, `enabled`.
`onFlush` is external; its invocations are the emitted batches. -/
structure BatchConfig where
  delay : Nat
  maxDelay : Nat
  maxBatchSize : Nat
  enabled : Bool
deriving DecidableEq, Repr

/-- The four refs of the hook: `batchQueueRef`, `batchTimeoutRef` (debounce
timer deadline), `maxDelayTimeoutRef` (ceiling timer deadline),
`batchStartTimeRef`. -/
structure SchedState (T : Type) where
  batchQueue : List T
  batchTimeout : Option Nat
  maxDelayTimeout : Option Nat
  batchStartTime : Option Nat
deriving DecidableEq, Repr

/-- Initial ref values (lines 57–60): empty queue, no timers, no start time. -/
def initState (T : Type) : SchedState T := ⟨[], none, none, none⟩

variable {T : Type}

/-- `flushBatch` (lines 63–87): if disabled, return; if the queue is empty,
return; otherwise clear the queue, reset `batchStartTime`, clear and null both
timeouts, and only then call `onFlush(batch)` with the drained queue. -/
def flushBatch (cfg : BatchConfig) (st : SchedState T) :
    SchedState T × List (List T) :=
  if cfg.enabled = false then (st, [])
  else if st.batchQueue.length = 0 then (st, [])
  else (⟨[], none, none, none⟩, [st.batchQueue])

/-- `scheduleBatchFlush` (lines 90–123): if disabled, return.  Clear any
existing debounce timeout and arm a new one for `delay` from now.  Then, if no
ceiling timeout is armed and `batchStartTime` is set, compute
`remainingDelay = Math.max(0, maxDelay - (Date.now() - batchStartTime))`; if
it is positive arm the ceiling timeout for that long, otherwise flush
immediately.  The subtraction is done in `Int` exactly as JavaScript does it
on integer inputs. -/
def scheduleBatchFlush (cfg : BatchConfig) (now : Nat) (st : SchedState T) :
    SchedState T × List (List T) :=
  if cfg.enabled = false then (st, [])
  else
    let st1 : SchedState T := { st with batchTimeout := some (now + cfg.delay) }
    match st1.maxDelayTimeout, st1.batchStartTime with
    | none, some start =>
        let elapsed : Int := (now : Int) - (start : Int)
        let diff : Int := (cfg.maxDelay : Int) - elapsed
        let remainingDelay : Int := if diff ≤ 0 then 0 else diff
        if 0 < remainingDelay then
          ({ st1 with maxDelayTimeout := some (now + remainingDelay.toNat) }, [])
        else
          flushBatch cfg st1
    | _, _ => (st1, [])

/-- `addToBatch` (lines 126–151): if disabled, call `onFlush([item])` and
return without touching any ref.  Otherwise set `batchStartTime` if this is
the first item of a batch, push the item, force a flush when the queue has
reached `maxBatchSize`, and otherwise reschedule via `scheduleBatchFlush`. -/
def addToBatch (cfg : BatchConfig) (now : Nat) (item : T) (st : SchedState T) :
    SchedState T × List (List T) :=
  if cfg.enabled = false then (st, [[item]])
  else
    let st1 : SchedState T :=
      if st.batchStartTime = none then { st with batchStartTime := some now } else st
    let st2 : SchedState T := { st1 with batchQueue := st1.batchQueue ++ [item] }
    if cfg.maxBatchSize ≤ st2.batchQueue.length then
      flushBatch cfg st2
    else
      scheduleBatchFlush cfg now st2

/-- The ceiling-timeout callback (lines 110–117): when the timer fires, flush
if the queue still has items, otherwise just null the handle. -/
def fireMaxDelay (cfg : BatchConfig) (st : SchedState T) :
    SchedState T × List (List T) :=
  if 0 < st.batchQueue.length then flushBatch cfg st
  else ({ st with maxDelayTimeout := none }, [])

/-- The cleanup effect (lines 154–167): cancel both timeouts with
`clearTimeout` (the cancelled timers never fire again), then flush the
remaining batch if non-empty. -/
def teardown (cfg : BatchConfig) (st : SchedState T) :
    SchedState T × List (List T) :=
  if 0 < st.batchQueue.length then flushBatch cfg st else (st, [])

/-- The events that can act on a live scheduler instance: an `addToBatch`
call, the debounce timeout firing (its callback is `() => flushBatch()`,
line 99–101), the ceiling timeout firing (lines 110–117), and a manual
`flushBatch` call by the consumer of the hook (line 171). -/
inductive Op (T : Type) where
  | append (item : T)
  | fireDebounce
  | fireMaxDelay
  | flush
deriving DecidableEq, Repr

/-- One event applied to the state at wall-clock time `now`. -/
def step (cfg : BatchConfig) (st : SchedState T) (now : Nat) :
    Op T → SchedState T × List (List T)
  | .append item => addToBatch cfg now item st
  | .fireDebounce => flushBatch cfg st
  | .fireMaxDelay => fireMaxDelay cfg st
  | .flush => flushBatch cfg st

/-- Run a timed event trace, collecting every batch handed to `onFlush` in
order of delivery. -/
def runTrace (cfg : BatchConfig) (st : SchedState T) :
    List (Nat × Op T) → SchedState T × List (List T)
  | [] => (st, [])
  | (t, op) :: rest =>
      let s1 := step cfg st t op
      let s2 := runTrace cfg s1.1 rest
      (s2.1, s1.2 ++ s2.2)

/-- The payload an event carries into the scheduler: the argument of an
`addToBatch` call, nothing for timer fires and manual flushes. -/
def opItems : Op T → List T
  | .append item => [item]
  | _ => []

/-- The payloads of the `append` events of a trace, in order: exactly the
arguments of the `addToBatch` calls. -/
def appendedItems : List (Nat × Op T) → List T
  | [] => []
  | (_, op) :: rest => opItems op ++ appendedItems rest

/-- A timer deadline is still in the future (or absent) at time `t`:
the JavaScript event loop never lets wall-clock time pass an armed timeout
without running its callback. -/
def timerOK (t : Nat) : Option Nat → Bool
  | none => true
  | some d => decide (t ≤ d)

/-- A fire event is only possible for the armed timer whose deadline is the
current time (timeouts run at their scheduled time); appends and manual
flushes are always possible. -/
def opValid (st : SchedState T) (t : Nat) : Op T → Bool
  | .fireDebounce => decide (st.batchTimeout = some t)
  | .fireMaxDelay => decide (st.maxDelayTimeout = some t)
  | _ => true

/-- Validity of a timed trace starting from `st` at time ≥ `t0`: times are
monotone, no step happens after an armed deadline has passed un-fired, and
fire events happen exactly at their deadlines. -/
def validFrom (cfg : BatchConfig) (st : SchedState T) (t0 : Nat) :
    List (Nat × Op T) → Bool
  | [] => true
  | (t, op) :: rest =>
      decide (t0 ≤ t) && timerOK t st.batchTimeout &&
      timerOK t st.maxDelayTimeout && opValid st t op &&
      validFrom cfg (step cfg st t op).1 t rest

/-- An op that can occur during "silence": neither an `addToBatch` call nor a
manual `flushBatch` call (only timers may act). -/
def isQuiet : Op T → Bool
  | .append _ => false
  | .flush => false
  | _ => true

/-- Inductive invariant of an enabled scheduler instance at time `t`: an empty
queue has no timers armed and no start time (the Idle state), and a non-empty
queue has a start time `s ≤ t` with the ceiling timeout armed for exactly
`s + maxDelay` (the Accumulating state; the ceiling deadline is pinned to the
batch start, which is how the source arms it at most once per batch). -/
def Inv (cfg : BatchConfig) (t : Nat) (st : SchedState T) : Prop :=
  (st.batchQueue.length = 0 →
    st.batchTimeout = none ∧ st.maxDelayTimeout = none ∧
      st.batchStartTime = none) ∧
  (st.batchQueue.length ≠ 0 →
    st.batchStartTime ≠ none ∧ st.batchStartTime.getD 0 ≤ t ∧
      st.maxDelayTimeout = some (st.batchStartTime.getD 0 + cfg.maxDelay))

/-- The primitive actions `flushBatch` performs, in source order: ref
mutations and the single `onFlush` call. -/
inductive Eff (T : Type) where
  | setQueue (q : List T)
  | setStartTime (v : Option Nat)
  | setBatchTimeout (v : Option Nat)
  | setMaxDelayTimeout (v : Option Nat)
  | callOnFlush (batch : List T)
deriving DecidableEq, Repr

/-- Effect of one primitive action on the refs (`callOnFlush` is external and
mutates nothing). -/
def applyEff (st : SchedState T) : Eff T → SchedState T
  | .setQueue q => { st with batchQueue := q }
  | .setStartTime v => { st with batchStartTime := v }
  | .setBatchTimeout v => { st with batchTimeout := v }
  | .setMaxDelayTimeout v => { st with maxDelayTimeout := v }
  | .callOnFlush _ => st

/-- Line-by-line action trace of `flushBatch` (lines 63–87): after the two
guards, the queue is cleared (line 70), `batchStartTime` reset (line 73),
both timeouts cleared and their refs nulled (lines 76–83), and only then is
`onFlush(batch)` invoked (line 86). -/
def flushBatchEffects (cfg : BatchConfig) (st : SchedState T) : List (Eff T) :=
  if cfg.enabled = false then []
  else if st.batchQueue.length = 0 then []
  else [.setQueue [], .setStartTime none, .setBatchTimeout none,
        .setMaxDelayTimeout none, .callOnFlush st.batchQueue]

/-- Whether a primitive action is the consumer call. -/
def isCall : Eff T → Bool
  | .callOnFlush _ => true
  | _ => false

/-- The raw options record `UseBatchUpdatesOptions` (lines 3–16 of the
source): every field except `onFlush` is optional; the numeric fields are
JavaScript numbers, which on this interface are integer millisecond counts,
modelled as `Int` so that negative misconfigurations are representable. -/
structure UseBatchUpdatesOptions where
  delay : Option Int
  maxDelay : Option Int
  maxBatchSize : Option Int
  enabled : Option Bool
deriving DecidableEq, Repr

/-- A resolved configuration over JavaScript numbers, before any
interpretation as durations. -/
structure ResolvedConfig where
  delay : Int
  maxDelay : Int
  maxBatchSize : Int
  enabled : Bool
deriving DecidableEq, Repr

/-- The whole construction-time treatment of the options (lines 50–56):
plain parameter destructuring with defaults `delay = 150`, `maxDelay = 500`,
`maxBatchSize = 50`, `enabled = true`.  The hook body contains no validation
of any kind: every options record resolves to a configuration and no error
can be raised at construction. -/
def resolveOptions (o : UseBatchUpdatesOptions) : ResolvedConfig :=
  ⟨o.delay.getD 150, o.maxDelay.getD 500, o.maxBatchSize.getD 50,
   o.enabled.getD true⟩

end BatchedUpdates

namespace BatchedUpdates

variable {T : Type}

/-! ### Shared case lemmas about the operations -/

theorem flushBatch_disabled {cfg : BatchConfig} (st : SchedState T)
    (h : cfg.enabled = false) : flushBatch cfg st = (st, []) := by
  simp [flushBatch, h]

theorem flushBatch_of_empty {cfg : BatchConfig} (st : SchedState T)
    (h : st.batchQueue = []) : flushBatch cfg st = (st, []) := by
  simp [flushBatch, h]

theorem flushBatch_spec {cfg : BatchConfig} (st : SchedState T)
    (he : cfg.enabled = true) (h : st.batchQueue ≠ []) :
    flushBatch cfg st = (⟨[], none, none, none⟩, [st.batchQueue]) := by
  simp [flushBatch, he, List.length_eq_zero, h]

theorem flushBatch_conserves {cfg : BatchConfig} (st : SchedState T)
    (he : cfg.enabled = true) :
    (flushBatch cfg st).2.flatten ++ (flushBatch cfg st).1.batchQueue =
      st.batchQueue := by
  by_cases h : st.batchQueue = []
  · rw [flushBatch_of_empty st h]; simp [h]
  · rw [flushBatch_spec st he h]; simp

theorem scheduleBatchFlush_conserves {cfg : BatchConfig} (now : Nat)
    (st : SchedState T) (he : cfg.enabled = true) :
    (scheduleBatchFlush cfg now st).2.flatten ++
      (scheduleBatchFlush cfg now st).1.batchQueue = st.batchQueue := by
  unfold scheduleBatchFlush
  simp only [he, Bool.true_eq_false, if_false]
  split
  · split_ifs <;> first
      | exact flushBatch_conserves _ he
      | simp
  · simp

theorem addToBatch_conserves {cfg : BatchConfig} (now : Nat) (item : T)
    (st : SchedState T) (he : cfg.enabled = true) :
    (addToBatch cfg now item st).2.flatten ++
      (addToBatch cfg now item st).1.batchQueue = st.batchQueue ++ [item] := by
  unfold addToBatch
  simp only [he, Bool.true_eq_false, if_false]
  by_cases hs : st.batchStartTime = none <;>
    simp only [hs, if_true, if_false, reduceIte] <;>
    split
  · exact flushBatch_conserves _ he
  · exact scheduleBatchFlush_conserves now _ he
  · exact flushBatch_conserves _ he
  · exact scheduleBatchFlush_conserves now _ he

theorem fireMaxDelay_conserves {cfg : BatchConfig} (st : SchedState T)
    (he : cfg.enabled = true) :
    (fireMaxDelay cfg st).2.flatten ++ (fireMaxDelay cfg st).1.batchQueue =
      st.batchQueue := by
  unfold fireMaxDelay
  split
  · exact flushBatch_conserves _ he
  · simp

theorem step_conserves {cfg : BatchConfig} (st : SchedState T) (now : Nat)
    (op : Op T) (he : cfg.enabled = true) :
    (step cfg st now op).2.flatten ++ (step cfg st now op).1.batchQueue =
      st.batchQueue ++ opItems op := by
  cases op with
  | append item => exact addToBatch_conserves now item st he
  | fireDebounce => simpa [step, opItems] using flushBatch_conserves st he
  | fireMaxDelay => simpa [step, opItems] using fireMaxDelay_conserves st he
  | flush => simpa [step, opItems] using flushBatch_conserves st he

/-- Conservation along any trace: the concatenation of everything delivered
to `onFlush`, followed by what is still queued, is the starting queue
followed by the appended items, in order. -/
theorem runTrace_conserves {cfg : BatchConfig} (he : cfg.enabled = true) :
    ∀ (tr : List (Nat × Op T)) (st : SchedState T),
      (runTrace cfg st tr).2.flatten ++ (runTrace cfg st tr).1.batchQueue =
        st.batchQueue ++ appendedItems tr
  | [], st => by simp [runTrace, appendedItems]
  | (t, op) :: rest, st => by
      have h1 := step_conserves st t op he
      have h2 := runTrace_conserves he rest (step cfg st t op).1
      simp only [runTrace, List.flatten_append, appendedItems]
      rw [List.append_assoc, h2, ← List.append_assoc, h1, List.append_assoc]

/-! ### Every delivered batch is non-empty -/

theorem flushBatch_batches_nonempty (cfg : BatchConfig) (st : SchedState T) :
    ∀ b ∈ (flushBatch cfg st).2, b ≠ [] := by
  intro b hb
  unfold flushBatch at hb
  split_ifs at hb with h1 h2
  · simp at hb
  · simp at hb
  · simp at hb
    rw [hb]
    exact fun hc => h2 (by simp [hc])

theorem scheduleBatchFlush_batches_nonempty (cfg : BatchConfig) (now : Nat)
    (st : SchedState T) : ∀ b ∈ (scheduleBatchFlush cfg now st).2, b ≠ [] := by
  intro b hb
  unfold scheduleBatchFlush at hb
  cases he : cfg.enabled with
  | false => simp only [he, reduceIte] at hb; simp at hb
  | true =>
      simp only [he, Bool.true_eq_false, if_false] at hb
      rcases hmd : st.maxDelayTimeout with _ | d <;>
        rcases hst : st.batchStartTime with _ | s <;>
        simp only [hmd, hst] at hb
      · simp at hb
      · repeat' split at hb
        all_goals first
          | exact flushBatch_batches_nonempty _ _ b hb
          | simp at hb
      · simp at hb
      · simp at hb

theorem addToBatch_batches_nonempty (cfg : BatchConfig) (now : Nat) (item : T)
    (st : SchedState T) : ∀ b ∈ (addToBatch cfg now item st).2, b ≠ [] := by
  intro b hb
  unfold addToBatch at hb
  cases he : cfg.enabled with
  | false =>
      simp only [he, reduceIte] at hb
      simp at hb
      simp [hb]
  | true =>
      simp only [he, Bool.true_eq_false, if_false] at hb
      by_cases hs : st.batchStartTime = none <;>
        simp only [hs, reduceIte, if_true, if_false] at hb <;>
        split at hb
      · exact flushBatch_batches_nonempty _ _ b hb
      · exact scheduleBatchFlush_batches_nonempty _ _ _ b hb
      · exact flushBatch_batches_nonempty _ _ b hb
      · exact scheduleBatchFlush_batches_nonempty _ _ _ b hb

theorem fireMaxDelay_batches_nonempty (cfg : BatchConfig) (st : SchedState T) :
    ∀ b ∈ (fireMaxDelay cfg st).2, b ≠ [] := by
  intro b hb
  unfold fireMaxDelay at hb
  split at hb
  · exact flushBatch_batches_nonempty _ _ b hb
  · simp at hb

theorem step_batches_nonempty (cfg : BatchConfig) (st : SchedState T)
    (now : Nat) (op : Op T) : ∀ b ∈ (step cfg st now op).2, b ≠ [] := by
  cases op with
  | append item => exact addToBatch_batches_nonempty cfg now item st
  | fireDebounce => exact flushBatch_batches_nonempty cfg st
  | fireMaxDelay => exact fireMaxDelay_batches_nonempty cfg st
  | flush => exact flushBatch_batches_nonempty cfg st

theorem runTrace_batches_nonempty (cfg : BatchConfig) :
    ∀ (tr : List (Nat × Op T)) (st : SchedState T),
      ∀ b ∈ (runTrace cfg st tr).2, b ≠ []
  | [], st => by simp [runTrace]
  | (t, op) :: rest, st => by
      intro b hb
      simp only [runTrace, List.mem_append] at hb
      rcases hb with h | h
      · exact step_batches_nonempty cfg st t op b h
      · exact runTrace_batches_nonempty cfg rest _ b h

/-- A list of non-empty batches whose concatenation is a single item is the
single singleton batch. -/
theorem flatten_eq_singleton {α : Type} (a : α) :
    ∀ L : List (List α), (∀ b ∈ L, b ≠ []) → L.flatten = [a] → L = [[a]]
  | [], _, hf => by simp at hf
  | [] :: _, h, _ => absurd rfl (h [] (by simp))
  | (x :: xs) :: rest, h, hf => by
      simp only [List.flatten_cons, List.cons_append, List.cons.injEq] at hf
      obtain ⟨hx, hxs⟩ := hf
      obtain ⟨hxs1, hxs2⟩ := List.append_eq_nil.mp hxs
      have hrest : rest = [] := by
        cases rest with
        | nil => rfl
        | cons c cs =>
            simp only [List.flatten_cons] at hxs2
            obtain ⟨hc, -⟩ := List.append_eq_nil.mp hxs2
            exact absurd hc (h c (by simp))
      subst hx; subst hxs1; subst hrest; rfl

/-! ### Structural lemmas: the branch taken by each operation -/

theorem scheduleBatchFlush_armed {cfg : BatchConfig} (he : cfg.enabled = true)
    (now d : Nat) (st : SchedState T) (hmd : st.maxDelayTimeout = some d) :
    scheduleBatchFlush cfg now st =
      ({ st with batchTimeout := some (now + cfg.delay) }, []) := by
  unfold scheduleBatchFlush
  simp only [he, Bool.true_eq_false, if_false, hmd]

theorem scheduleBatchFlush_noStart {cfg : BatchConfig} (he : cfg.enabled = true)
    (now : Nat) (st : SchedState T) (hst : st.batchStartTime = none) :
    scheduleBatchFlush cfg now st =
      ({ st with batchTimeout := some (now + cfg.delay) }, []) := by
  unfold scheduleBatchFlush
  simp only [he, Bool.true_eq_false, if_false, hst]
  rcases hmd : st.maxDelayTimeout with _ | d <;> simp [hmd]

theorem scheduleBatchFlush_expired {cfg : BatchConfig} (he : cfg.enabled = true)
    (now s : Nat) (st : SchedState T) (hmd : st.maxDelayTimeout = none)
    (hst : st.batchStartTime = some s) (hq : st.batchQueue ≠ [])
    (hexp : s + cfg.maxDelay ≤ now) :
    scheduleBatchFlush cfg now st = (⟨[], none, none, none⟩, [st.batchQueue]) := by
  unfold scheduleBatchFlush
  simp only [he, Bool.true_eq_false, if_false, hmd, hst]
  split_ifs with h1 h2 <;> first
    | exact flushBatch_spec _ he hq
    | omega

theorem scheduleBatchFlush_arms {cfg : BatchConfig} (he : cfg.enabled = true)
    (now s : Nat) (st : SchedState T) (hmd : st.maxDelayTimeout = none)
    (hst : st.batchStartTime = some s)
    (hlt : now < s + cfg.maxDelay) :
    scheduleBatchFlush cfg now st =
      ({ st with batchTimeout := some (now + cfg.delay),
                 maxDelayTimeout := some (s + cfg.maxDelay) }, []) := by
  unfold scheduleBatchFlush
  simp only [he, Bool.true_eq_false, if_false, hmd, hst]
  split_ifs with h1 h2
  · omega
  · omega
  · simp only [Prod.mk.injEq, SchedState.mk.injEq, Option.some.injEq,
      and_true, true_and]
    omega
  · omega

theorem addToBatch_size {cfg : BatchConfig} (he : cfg.enabled = true)
    (now : Nat) (item : T) (st : SchedState T)
    (hsz : cfg.maxBatchSize ≤ st.batchQueue.length + 1) :
    addToBatch cfg now item st =
      (⟨[], none, none, none⟩, [st.batchQueue ++ [item]]) := by
  unfold addToBatch
  simp only [he, Bool.true_eq_false, if_false]
  by_cases hs : st.batchStartTime = none <;>
    simp only [hs, reduceIte, if_true, if_false]
  · rw [if_pos (by simpa using hsz)]
    exact flushBatch_spec _ he (by simp)
  · rw [if_pos (by simpa using hsz)]
    exact flushBatch_spec _ he (by simp)

theorem addToBatch_small_first {cfg : BatchConfig} (he : cfg.enabled = true)
    (now : Nat) (item : T) (st : SchedState T)
    (hsz : st.batchQueue.length + 1 < cfg.maxBatchSize)
    (hs : st.batchStartTime = none) :
    addToBatch cfg now item st =
      scheduleBatchFlush cfg now
        ⟨st.batchQueue ++ [item], st.batchTimeout, st.maxDelayTimeout,
         some now⟩ := by
  unfold addToBatch
  simp only [he, Bool.true_eq_false, if_false, hs, reduceIte]
  rw [if_neg (by simp only [List.length_append, List.length_cons,
    List.length_nil]; omega)]

theorem addToBatch_small_started {cfg : BatchConfig} (he : cfg.enabled = true)
    (now s : Nat) (item : T) (st : SchedState T)
    (hsz : st.batchQueue.length + 1 < cfg.maxBatchSize)
    (hs : st.batchStartTime = some s) :
    addToBatch cfg now item st =
      scheduleBatchFlush cfg now
        ⟨st.batchQueue ++ [item], st.batchTimeout, st.maxDelayTimeout,
         some s⟩ := by
  unfold addToBatch
  have hs2 : ¬ (st.batchStartTime = none) := by rw [hs]; simp
  simp only [he, Bool.true_eq_false, if_false, hs2, reduceIte]
  rw [if_neg (by simp only [List.length_append, List.length_cons,
    List.length_nil]; omega)]
  rw [hs]

theorem teardown_spec_nonempty {cfg : BatchConfig} (he : cfg.enabled = true)
    (st : SchedState T) (hq : st.batchQueue ≠ []) :
    teardown cfg st = (⟨[], none, none, none⟩, [st.batchQueue]) := by
  unfold teardown
  rw [if_pos (List.length_pos.mpr hq)]
  exact flushBatch_spec st he hq

theorem teardown_of_empty {cfg : BatchConfig} (st : SchedState T)
    (hq : st.batchQueue = []) : teardown cfg st = (st, []) := by
  unfold teardown
  rw [if_neg (by simp [hq])]

theorem step_disabled_state {cfg : BatchConfig} (hd : cfg.enabled = false)
    (t : Nat) (op : Op T) : (step cfg (initState T) t op).1 = initState T := by
  cases op with
  | append item => simp [step, addToBatch, hd]
  | fireDebounce => rw [step, flushBatch_disabled _ hd]
  | fireMaxDelay => simp [step, fireMaxDelay, initState, flushBatch, hd]
  | flush => rw [step, flushBatch_disabled _ hd]

/-! ### The inductive invariant and its preservation along valid traces -/

theorem Inv_reset {cfg : BatchConfig} (t : Nat) :
    Inv cfg t (⟨[], none, none, none⟩ : SchedState T) :=
  ⟨fun _ => ⟨rfl, rfl, rfl⟩, fun h => absurd rfl h⟩

theorem Inv_step {cfg : BatchConfig} (he : cfg.enabled = true)
    (st : SchedState T) (t0 t : Nat) (op : Op T) (hInv : Inv cfg t0 st)
    (ht : t0 ≤ t) (hop : opValid st t op = true) :
    Inv cfg t (step cfg st t op).1 := by
  obtain ⟨h1, h2⟩ := hInv
  cases op with
  | append item =>
      show Inv cfg t (addToBatch cfg t item st).1
      by_cases hsz : cfg.maxBatchSize ≤ st.batchQueue.length + 1
      · rw [addToBatch_size he t item st hsz]
        exact Inv_reset t
      · push_neg at hsz
        by_cases hq0 : st.batchQueue.length = 0
        · obtain ⟨hbt, hmd, hst⟩ := h1 hq0
          rw [addToBatch_small_first he t item st hsz hst]
          by_cases hm : cfg.maxDelay = 0
          · rw [scheduleBatchFlush_expired he t t
              (⟨st.batchQueue ++ [item], st.batchTimeout, st.maxDelayTimeout,
                some t⟩ : SchedState T) hmd rfl (by simp) (by omega)]
            exact Inv_reset t
          · rw [scheduleBatchFlush_arms he t t
              (⟨st.batchQueue ++ [item], st.batchTimeout, st.maxDelayTimeout,
                some t⟩ : SchedState T) hmd rfl (by omega)]
            exact ⟨fun hc => absurd hc (by simp),
              fun _ => ⟨by simp, by simp, by simp⟩⟩
        · obtain ⟨hsn, hsle, hmd⟩ := h2 hq0
          obtain ⟨s, hs⟩ := Option.ne_none_iff_exists'.mp hsn
          rw [addToBatch_small_started he t s item st hsz hs]
          rw [scheduleBatchFlush_armed he t
            (st.batchStartTime.getD 0 + cfg.maxDelay)
            (⟨st.batchQueue ++ [item], st.batchTimeout, st.maxDelayTimeout,
              some s⟩ : SchedState T) hmd]
          have hs0 : s ≤ t0 := by simpa [hs] using hsle
          refine ⟨fun hc => absurd hc (by simp),
            fun _ => ⟨by simp, by simpa using le_trans hs0 ht, ?_⟩⟩
          rw [hs] at hmd
          simpa using hmd
  | fireDebounce =>
      show Inv cfg t (flushBatch cfg st).1
      by_cases hq0 : st.batchQueue.length = 0
      · obtain ⟨hbt, -, -⟩ := h1 hq0
        simp [opValid, hbt] at hop
      · rw [flushBatch_spec st he (fun hc => hq0 (by simp [hc]))]
        exact Inv_reset t
  | fireMaxDelay =>
      show Inv cfg t (fireMaxDelay cfg st).1
      by_cases hq0 : st.batchQueue.length = 0
      · obtain ⟨-, hmd, -⟩ := h1 hq0
        simp [opValid, hmd] at hop
      · unfold fireMaxDelay
        rw [if_pos (by omega)]
        rw [flushBatch_spec st he (fun hc => hq0 (by simp [hc]))]
        exact Inv_reset t
  | flush =>
      show Inv cfg t (flushBatch cfg st).1
      by_cases hq0 : st.batchQueue.length = 0
      · rw [flushBatch_of_empty st (List.length_eq_zero.mp hq0)]
        exact ⟨h1, fun hc => absurd hq0 hc⟩
      · rw [flushBatch_spec st he (fun hc => hq0 (by simp [hc]))]
        exact Inv_reset t

theorem validFrom_cons {cfg : BatchConfig} {st : SchedState T} {t0 t : Nat}
    {op : Op T} {rest : List (Nat × Op T)}
    (h : validFrom cfg st t0 ((t, op) :: rest) = true) :
    t0 ≤ t ∧ timerOK t st.batchTimeout = true ∧
    timerOK t st.maxDelayTimeout = true ∧ opValid st t op = true ∧
    validFrom cfg (step cfg st t op).1 t rest = true := by
  simp only [validFrom, Bool.and_eq_true, decide_eq_true_eq] at h
  exact ⟨h.1.1.1.1, h.1.1.1.2, h.1.1.2, h.1.2, h.2⟩

theorem Inv_validFrom {cfg : BatchConfig} (he : cfg.enabled = true) :
    ∀ (tr : List (Nat × Op T)) (st : SchedState T) (t0 : Nat),
      Inv cfg t0 st → validFrom cfg st t0 tr = true →
      ∃ t1, t0 ≤ t1 ∧ Inv cfg t1 (runTrace cfg st tr).1
  | [], st, t0, hInv, _ => ⟨t0, le_refl t0, hInv⟩
  | (t, op) :: rest, st, t0, hInv, hv => by
      obtain ⟨ht, -, -, hop, hrest⟩ := validFrom_cons hv
      obtain ⟨t1, ht1, hInv1⟩ :=
        Inv_validFrom he rest (step cfg st t op).1 t
          (Inv_step he st t0 t op hInv ht hop) hrest
      exact ⟨t1, le_trans ht ht1, by simpa [runTrace] using hInv1⟩

theorem validFrom_append {cfg : BatchConfig} :
    ∀ (xs ys : List (Nat × Op T)) (st : SchedState T) (t0 : Nat),
      validFrom cfg st t0 (xs ++ ys) = true →
      validFrom cfg st t0 xs = true ∧
      ∃ t1, t0 ≤ t1 ∧ validFrom cfg (runTrace cfg st xs).1 t1 ys = true
  | [], ys, st, t0, h => ⟨rfl, t0, le_refl t0, by simpa [runTrace] using h⟩
  | (t, op) :: xs, ys, st, t0, h => by
      rw [List.cons_append] at h
      obtain ⟨ht, hok1, hok2, hop, hrest⟩ := validFrom_cons h
      obtain ⟨hxs, t1, ht1, hys⟩ :=
        validFrom_append xs ys (step cfg st t op).1 t hrest
      refine ⟨?_, t1, le_trans ht ht1, by simpa [runTrace] using hys⟩
      simp only [validFrom, Bool.and_eq_true, decide_eq_true_eq]
      exact ⟨⟨⟨⟨ht, hok1⟩, hok2⟩, hop⟩, hxs⟩

theorem Inv_init {cfg : BatchConfig} (t : Nat) : Inv cfg t (initState T) :=
  Inv_reset t

/-- `scheduleBatchFlush` hands a batch to `onFlush` only on its
immediate-flush path: the ceiling timeout must be unarmed and the ceiling of
the current batch must already have fully elapsed. -/
theorem scheduleBatchFlush_emits_expired {cfg : BatchConfig}
    (he : cfg.enabled = true) (now : Nat) (st : SchedState T)
    (hne : (scheduleBatchFlush cfg now st).2 ≠ []) :
    st.maxDelayTimeout = none ∧
    ∃ s, st.batchStartTime = some s ∧ s + cfg.maxDelay ≤ now := by
  rcases hmd : st.maxDelayTimeout with _ | d
  · rcases hst : st.batchStartTime with _ | s
    · rw [scheduleBatchFlush_noStart he now st hst] at hne
      simp at hne
    · refine ⟨rfl, s, rfl, ?_⟩
      by_contra hlt
      push_neg at hlt
      rw [scheduleBatchFlush_arms he now s st hmd hst hlt] at hne
      simp at hne
  · rw [scheduleBatchFlush_armed he now d st hmd] at hne
    simp at hne

end BatchedUpdates

namespace BatchedUpdates

variable {T : Type}

/-! ### The claims -/

/-- C1: on an enabled scheduler, for every sequence of `addToBatch` calls
interleaved arbitrarily with timer fires and manual flushes (no teardown),
the concatenation of all batches delivered to `onFlush`, followed by the
events still queued, is exactly the list of accepted events in call order;
once the queue has drained, the delivered batches therefore concatenate to
exactly the accepted events — each delivered exactly once, in the original
order both within each batch and across batch boundaries. -/
theorem noLoss_ordered_delivery {T : Type} (cfg : BatchConfig)
    (he : cfg.enabled = true) (tr : List (Nat × Op T)) :
    (runTrace cfg (initState T) tr).2.flatten ++
        (runTrace cfg (initState T) tr).1.batchQueue = appendedItems tr ∧
    ((runTrace cfg (initState T) tr).1.batchQueue = [] →
      (runTrace cfg (initState T) tr).2.flatten = appendedItems tr) := by
  have h := runTrace_conserves he tr (initState T)
  rw [show (initState T).batchQueue = ([] : List T) from rfl,
    List.nil_append] at h
  refine ⟨h, fun hq => ?_⟩
  rw [hq, List.append_nil] at h
  exact h

/-- Witness for C1: two appends then a debounce fire deliver exactly the
appended events in order. -/
theorem noLoss_ordered_delivery_witness :
    (runTrace ⟨150, 500, 50, true⟩ (initState Nat)
        [(0, Op.append 1), (50, Op.append 2),
         (200, Op.fireDebounce)]).2.flatten =
      appendedItems [((0 : Nat), Op.append (1 : Nat)), (50, Op.append 2),
        (200, Op.fireDebounce)] :=
  (noLoss_ordered_delivery ⟨150, 500, 50, true⟩ rfl
    [(0, Op.append 1), (50, Op.append 2), (200, Op.fireDebounce)]).2
    (by decide)

/-- C2: hard ceiling on an enabled scheduler. (1) Along every valid timed
trace from the initial state, whenever the queue is non-empty the ceiling
timeout is armed with deadline exactly `batchStartTime + maxDelay`: it was
armed once, at the first append of the batch, for the remaining
`maxDelay - (now - batchStartTime)`, and the `isNone` guard prevents any
re-arming. (2) Consequently no valid step — in particular no further append
into that batch — can occur later than `batchStartTime + maxDelay` while the
batch is unflushed; time cannot pass the armed deadline without the ceiling
firing, so the batch is flushed no later than `batchStartTime + maxDelay`.
(3) The ceiling fire on a non-empty queue delivers the whole batch and fully
resets the state. (4) If the remaining ceiling delay is already
non-positive when rescheduling, the flush happens immediately inside that
very call. -/
theorem hard_ceiling_bound {T : Type} (cfg : BatchConfig)
    (he : cfg.enabled = true) :
    (∀ tr : List (Nat × Op T),
      validFrom cfg (initState T) 0 tr = true →
      (runTrace cfg (initState T) tr).1.batchQueue ≠ [] →
      (runTrace cfg (initState T) tr).1.batchStartTime ≠ none ∧
      (runTrace cfg (initState T) tr).1.maxDelayTimeout =
        some ((runTrace cfg (initState T) tr).1.batchStartTime.getD 0 +
          cfg.maxDelay)) ∧
    (∀ (tr tr2 : List (Nat × Op T)) (t : Nat) (op : Op T),
      validFrom cfg (initState T) 0 (tr ++ (t, op) :: tr2) = true →
      (runTrace cfg (initState T) tr).1.batchQueue ≠ [] →
      t ≤ (runTrace cfg (initState T) tr).1.batchStartTime.getD 0 +
        cfg.maxDelay) ∧
    (∀ st : SchedState T, st.batchQueue ≠ [] →
      fireMaxDelay cfg st = (initState T, [st.batchQueue])) ∧
    (∀ (now s : Nat) (st : SchedState T), st.maxDelayTimeout = none →
      st.batchStartTime = some s → st.batchQueue ≠ [] →
      s + cfg.maxDelay ≤ now →
      scheduleBatchFlush cfg now st = (initState T, [st.batchQueue])) := by
  refine ⟨?_, ?_, ?_, ?_⟩
  · intro tr hv hq
    obtain ⟨t1, -, hInv⟩ := Inv_validFrom he tr (initState T) 0 (Inv_init 0) hv
    have hlen : (runTrace cfg (initState T) tr).1.batchQueue.length ≠ 0 := by
      simpa [List.length_eq_zero] using hq
    obtain ⟨ha, -, hb⟩ := hInv.2 hlen
    exact ⟨ha, hb⟩
  · intro tr tr2 t op hv hq
    obtain ⟨hpre, t1, -, hcont⟩ :=
      validFrom_append tr ((t, op) :: tr2) (initState T) 0 hv
    obtain ⟨-, -, hok2, -, -⟩ := validFrom_cons hcont
    obtain ⟨t2, -, hInv⟩ :=
      Inv_validFrom he tr (initState T) 0 (Inv_init 0) hpre
    have hlen : (runTrace cfg (initState T) tr).1.batchQueue.length ≠ 0 := by
      simpa [List.length_eq_zero] using hq
    obtain ⟨-, -, hb⟩ := hInv.2 hlen
    rw [hb] at hok2
    simpa [timerOK] using hok2
  · intro st hq
    unfold fireMaxDelay
    rw [if_pos (List.length_pos.mpr hq)]
    exact flushBatch_spec st he hq
  · intro now s st hmd hst hq hexp
    exact scheduleBatchFlush_expired he now s st hmd hst hq hexp

/-- Witness for C2: after two appends the ceiling deadline equals the batch
start plus `maxDelay`, and the ceiling fire drains the batch. -/
theorem hard_ceiling_bound_witness :
    (runTrace ⟨150, 500, 50, true⟩ (initState Nat)
        [(0, Op.append 1), (100, Op.append 2)]).1.maxDelayTimeout =
      some ((runTrace ⟨150, 500, 50, true⟩ (initState Nat)
        [(0, Op.append 1), (100, Op.append 2)]).1.batchStartTime.getD 0 +
        500) ∧
    fireMaxDelay ⟨150, 500, 50, true⟩
        (⟨[1, 2], some 250, some 500, some 0⟩ : SchedState Nat) =
      (initState Nat, [[1, 2]]) :=
  ⟨((hard_ceiling_bound ⟨150, 500, 50, true⟩ rfl).1
      [(0, Op.append 1), (100, Op.append 2)] (by decide) (by decide)).2,
   (hard_ceiling_bound ⟨150, 500, 50, true⟩ rfl).2.2.1
      (⟨[1, 2], some 250, some 500, some 0⟩ : SchedState Nat) (by decide)⟩

/-- C3 counterexample: `delay = 150`, `maxDelay = 500`, `maxBatchSize = 7`.
Seven events are appended at times 0, 100, 200, 300, 400, 500, 600 — every
gap is 100 < delay, so there is no idle gap of at least `delay` — yet the
ceiling timer fires at t = 500 (while the armed debounce deadline is 550,
i.e. before the debounce window elapses, through a path other than the size
limit) and flushes only `[1,2,3,4,5]`.  The 7-th append therefore triggers
no synchronous flush and no delivered batch has length `maxBatchSize`,
refuting both that the k-th append flushes a batch of length exactly k and
that the size-limit path is the only path that can flush before the
debounce window elapses. -/
theorem size_limit_flush_cex :
    validFrom ⟨150, 500, 7, true⟩ (initState Nat) 0
        [(0, Op.append 1), (100, Op.append 2), (200, Op.append 3),
         (300, Op.append 4), (400, Op.append 5), (500, Op.fireMaxDelay),
         (500, Op.append 6), (600, Op.append 7)] = true ∧
    (runTrace ⟨150, 500, 7, true⟩ (initState Nat)
        [(0, Op.append 1), (100, Op.append 2), (200, Op.append 3),
         (300, Op.append 4), (400, Op.append 5), (500, Op.fireMaxDelay),
         (500, Op.append 6), (600, Op.append 7)]).2 = [[1, 2, 3, 4, 5]] := by
  constructor
  · decide
  · decide

/-- C3 (amended): on an enabled scheduler, an `addToBatch` call that brings
the queue to exactly `maxBatchSize` flushes synchronously before returning,
the delivered batch has length exactly `maxBatchSize`, and both timers are
cancelled (the state is fully reset).  An append that leaves the queue below
`maxBatchSize` can flush synchronously only when the ceiling timeout is
unarmed and the batch's `maxDelay` ceiling has already elapsed, and the
debounce timer can only ever fire exactly at its own deadline; so apart from
ceiling expiry, manual flushes and teardown, the size-limit path is the only
path that flushes before the debounce window elapses. -/
theorem size_limit_flush {T : Type} (cfg : BatchConfig)
    (he : cfg.enabled = true) :
    (∀ (now : Nat) (item : T) (st : SchedState T),
      st.batchQueue.length + 1 = cfg.maxBatchSize →
      addToBatch cfg now item st =
        (initState T, [st.batchQueue ++ [item]]) ∧
      (st.batchQueue ++ [item]).length = cfg.maxBatchSize) ∧
    (∀ (now : Nat) (item : T) (st : SchedState T),
      st.batchQueue.length + 1 < cfg.maxBatchSize →
      (addToBatch cfg now item st).2 ≠ [] →
      st.maxDelayTimeout = none ∧
      st.batchStartTime.getD now + cfg.maxDelay ≤ now) ∧
    (∀ (st : SchedState T) (t : Nat),
      opValid st t (Op.fireDebounce : Op T) = true →
      st.batchTimeout = some t) := by
  refine ⟨?_, ?_, ?_⟩
  · intro now item st hk
    refine ⟨?_, by simpa using hk⟩
    rw [addToBatch_size he now item st (by omega)]
    rfl
  · intro now item st hsz hne
    rcases hst : st.batchStartTime with _ | s
    · rw [addToBatch_small_first he now item st hsz hst] at hne
      obtain ⟨hmd, s2, hs2, hexp⟩ :=
        scheduleBatchFlush_emits_expired he now _ hne
      have h3 : now = s2 := Option.some.inj hs2
      refine ⟨hmd, ?_⟩
      simp only [hst, Option.getD_none]
      omega
    · rw [addToBatch_small_started he now s item st hsz hst] at hne
      obtain ⟨hmd, s2, hs2, hexp⟩ :=
        scheduleBatchFlush_emits_expired he now _ hne
      have h3 : s = s2 := Option.some.inj hs2
      refine ⟨hmd, ?_⟩
      simp only [hst, Option.getD_some]
      omega
  · intro st t hv
    simpa [opValid] using hv

/-- Witness for C3 (amended): the spec's concrete scenario — with
`maxBatchSize = 3` and two queued events, the third append flushes
`[1, 2, 3]` synchronously and resets the state. -/
theorem size_limit_flush_witness :
    addToBatch ⟨150, 500, 3, true⟩ 90 (3 : Nat)
        (⟨[1, 2], some 240, some 500, some 0⟩ : SchedState Nat) =
      (initState Nat, [[1, 2, 3]]) ∧
    ([1, 2, 3] : List Nat).length = 3 :=
  ⟨((size_limit_flush ⟨150, 500, 3, true⟩ rfl).1 90 3
      (⟨[1, 2], some 240, some 500, some 0⟩ : SchedState Nat) (by decide)).1,
   ((size_limit_flush ⟨150, 500, 3, true⟩ rfl).1 90 3
      (⟨[1, 2], some 240, some 500, some 0⟩ : SchedState Nat) (by decide)).2⟩

/-- C4 counterexample: the claim quantifies over every enabled scheduler,
but with `maxBatchSize = 1` (and `delay = 150`) a single `addToBatch`
flushes synchronously at the moment of the append — a flush before `delay`
has elapsed, and no debounce timer is ever armed for it. -/
theorem debounce_claim_cex :
    addToBatch ⟨150, 500, 1, true⟩ 0 (5 : Nat) (initState Nat) =
      (initState Nat, [[5]]) ∧ (0 : Nat) + 1 < 150 := by
  constructor
  · decide
  · decide

/-- C4 (amended): on an enabled scheduler with `2 ≤ maxBatchSize`,
`0 < delay` and `delay ≤ maxDelay`: a single append at time t from the idle
state delivers nothing and arms the debounce timer for `t + delay` (and the
ceiling for `t + maxDelay`); during silence no timer can validly fire before
`t + delay`; the debounce fire at `t + delay` delivers exactly `[e]` and
returns the scheduler to the initial state, after which no timer can fire at
all (so exactly one flush); and every subsequent append while accumulating
(ceiling armed) that stays below `maxBatchSize` re-arms the debounce timer
for `delay` from the append's own time. -/
theorem debounce_semantics {T : Type} (cfg : BatchConfig)
    (he : cfg.enabled = true) (hk : 2 ≤ cfg.maxBatchSize)
    (hd0 : 0 < cfg.delay) (hdm : cfg.delay ≤ cfg.maxDelay) :
    (∀ (t : Nat) (e : T),
      addToBatch cfg t e (initState T) =
        (⟨[e], some (t + cfg.delay), some (t + cfg.maxDelay), some t⟩, [])) ∧
    (∀ (t t2 : Nat) (e : T) (op : Op T), isQuiet op = true →
      opValid (⟨[e], some (t + cfg.delay), some (t + cfg.maxDelay), some t⟩ :
        SchedState T) t2 op = true →
      t + cfg.delay ≤ t2) ∧
    (∀ (t : Nat) (e : T),
      step cfg (⟨[e], some (t + cfg.delay), some (t + cfg.maxDelay),
        some t⟩ : SchedState T) (t + cfg.delay) Op.fireDebounce =
        (initState T, [[e]])) ∧
    (∀ (t2 : Nat) (op : Op T), isQuiet op = true →
      opValid (initState T) t2 op = false) ∧
    (∀ (now : Nat) (item : T) (st : SchedState T) (c : Nat),
      st.maxDelayTimeout = some c →
      st.batchQueue.length + 1 < cfg.maxBatchSize →
      (addToBatch cfg now item st).1.batchTimeout =
        some (now + cfg.delay)) := by
  refine ⟨?_, ?_, ?_, ?_, ?_⟩
  · intro t e
    rw [addToBatch_small_first he t e (initState T)
      (by simp only [initState, List.length_nil]; omega) rfl]
    rw [scheduleBatchFlush_arms he t t
      (⟨(initState T).batchQueue ++ [e], (initState T).batchTimeout,
        (initState T).maxDelayTimeout, some t⟩ : SchedState T) rfl rfl
      (by omega)]
    rfl
  · intro t t2 e op hq hv
    cases op with
    | append i => simp [isQuiet] at hq
    | flush => simp [isQuiet] at hq
    | fireDebounce =>
        have h2 : t + cfg.delay = t2 := by simpa [opValid] using hv
        omega
    | fireMaxDelay =>
        have h2 : t + cfg.maxDelay = t2 := by simpa [opValid] using hv
        omega
  · intro t e
    show flushBatch cfg _ = _
    rw [flushBatch_spec _ he (by simp)]
    rfl
  · intro t2 op hq
    cases op with
    | append i => simp [isQuiet] at hq
    | flush => simp [isQuiet] at hq
    | fireDebounce => simp [opValid, initState]
    | fireMaxDelay => simp [opValid, initState]
  · intro now item st c hmd hsz
    rcases hst : st.batchStartTime with _ | s
    · rw [addToBatch_small_first he now item st hsz hst]
      rw [scheduleBatchFlush_armed he now c
        (⟨st.batchQueue ++ [item], st.batchTimeout, st.maxDelayTimeout,
          some now⟩ : SchedState T) hmd]
    · rw [addToBatch_small_started he now s item st hsz hst]
      rw [scheduleBatchFlush_armed he now c
        (⟨st.batchQueue ++ [item], st.batchTimeout, st.maxDelayTimeout,
          some s⟩ : SchedState T) hmd]

/-- Witness for C4 (amended): one append at t = 20 arms the timers for 170
and 520 and delivers nothing; the debounce fire at 170 delivers `[[5]]`. -/
theorem debounce_semantics_witness :
    addToBatch ⟨150, 500, 50, true⟩ 20 (5 : Nat) (initState Nat) =
      (⟨[5], some 170, some 520, some 20⟩, []) ∧
    step ⟨150, 500, 50, true⟩
        (⟨[5], some 170, some 520, some 20⟩ : SchedState Nat) 170
        Op.fireDebounce = (initState Nat, [[5]]) :=
  ⟨(debounce_semantics ⟨150, 500, 50, true⟩ rfl (by decide) (by decide)
      (by decide)).1 20 5,
   (debounce_semantics ⟨150, 500, 50, true⟩ rfl (by decide) (by decide)
      (by decide)).2.2.1 20 5⟩

/-- C5: on every flush of an enabled scheduler with a non-empty queue, the
action trace of `flushBatch` is the four ref resets followed by the single
`onFlush` call; folding the actions that precede the call over any starting
state yields the fully reset state (empty queue, cleared `batchStartTime`,
both timer refs nulled), so the internal state is consistent strictly before
the consumer runs.  A consumer that throws at the call point therefore
leaves the scheduler in the reset state, from which a repeated `flushBatch`
delivers nothing — the batch cannot be double-delivered and the scheduler is
not stuck. -/
theorem flush_resets_state_before_consumer {T : Type} (cfg : BatchConfig)
    (st : SchedState T) (he : cfg.enabled = true)
    (hq : st.batchQueue ≠ []) :
    flushBatchEffects cfg st =
      [Eff.setQueue [], Eff.setStartTime none, Eff.setBatchTimeout none,
       Eff.setMaxDelayTimeout none, Eff.callOnFlush st.batchQueue] ∧
    (∀ e ∈ (flushBatchEffects cfg st).take 4, isCall e = false) ∧
    List.foldl applyEff st ((flushBatchEffects cfg st).take 4) =
      initState T ∧
    (flushBatch cfg st).1 = initState T ∧
    flushBatch cfg (initState T) = (initState T, []) := by
  have hlist : flushBatchEffects cfg st =
      [Eff.setQueue [], Eff.setStartTime none, Eff.setBatchTimeout none,
       Eff.setMaxDelayTimeout none, Eff.callOnFlush st.batchQueue] := by
    unfold flushBatchEffects
    rw [if_neg (by simp [he]),
      if_neg (by simpa [List.length_eq_zero] using hq)]
  refine ⟨hlist, ?_, ?_, ?_, ?_⟩
  · rw [hlist]
    intro e he2
    simp only [List.take, List.mem_cons, List.not_mem_nil, or_false] at he2
    rcases he2 with h | h | h | h <;> subst h <;> rfl
  · rw [hlist]
    rfl
  · exact congrArg Prod.fst (flushBatch_spec st he hq)
  · exact flushBatch_of_empty _ rfl

/-- Witness for C5: folding the pre-call actions over a fully populated
state yields the initial (reset) state. -/
theorem flush_resets_state_before_consumer_witness :
    List.foldl applyEff (⟨[7], some 1, some 2, some 0⟩ : SchedState Nat)
        ((flushBatchEffects ⟨150, 500, 50, true⟩
          (⟨[7], some 1, some 2, some 0⟩ : SchedState Nat)).take 4) =
      initState Nat ∧
    flushBatch ⟨150, 500, 50, true⟩ (initState Nat) = (initState Nat, []) :=
  ⟨(flush_resets_state_before_consumer ⟨150, 500, 50, true⟩
      (⟨[7], some 1, some 2, some 0⟩ : SchedState Nat) rfl
      (by decide)).2.2.1,
   (flush_resets_state_before_consumer ⟨150, 500, 50, true⟩
      (⟨[7], some 1, some 2, some 0⟩ : SchedState Nat) rfl
      (by decide)).2.2.2.2⟩

/-- C6: the code performs no construction-time validation.  An options
record with `maxBatchSize = 0` resolves silently (no error path exists in
lines 50–56), and under the resulting configuration every single
`addToBatch` immediately flushes a singleton batch — precisely the
pathological flush-on-every-event behavior the spec says a descriptive
validation error must prevent.  The claim is right about the spec's intent
and false of the code. -/
theorem construction_accepts_invalid_config :
    resolveOptions ⟨none, none, some 0, none⟩ = ⟨150, 500, 0, true⟩ ∧
    (addToBatch ⟨150, 500, 0, true⟩ 0 (1 : Nat) (initState Nat)).2 =
      [[1]] ∧
    (addToBatch ⟨150, 500, 0, true⟩ 100 (2 : Nat) (initState Nat)).2 =
      [[2]] :=
  ⟨rfl, by decide, by decide⟩

/-- C7: flushing with an empty queue is a no-op for every configuration —
the consumer is not invoked, nothing can be thrown (the embedded operation
is total), and the state is returned unchanged; consequently every batch
ever handed to `onFlush` along any trace from the initial state is
non-empty. -/
theorem empty_flush_noop {T : Type} (cfg : BatchConfig) :
    (∀ st : SchedState T, st.batchQueue = [] →
      flushBatch cfg st = (st, [])) ∧
    ∀ (tr : List (Nat × Op T)) (b : List T),
      b ∈ (runTrace cfg (initState T) tr).2 → b ≠ [] :=
  ⟨fun st h => flushBatch_of_empty st h,
   fun tr b hb => runTrace_batches_nonempty cfg tr (initState T) b hb⟩

/-- Witness for C7: flushing the fresh state delivers nothing, and the batch
delivered by an append-then-flush trace is non-empty. -/
theorem empty_flush_noop_witness :
    flushBatch ⟨150, 500, 50, true⟩ (initState Nat) = (initState Nat, []) ∧
    ([3] : List Nat) ≠ [] :=
  ⟨(empty_flush_noop ⟨150, 500, 50, true⟩).1 (initState Nat) rfl,
   (empty_flush_noop ⟨150, 500, 50, true⟩).2
     [(0, Op.append 3), (0, Op.flush)] [3] (by decide)⟩

/-- C8: with `enabled = false`, every `addToBatch` synchronously delivers
the single-element batch `[item]` and returns the state unchanged — no ref
is touched; hence along any trace the disabled scheduler never leaves the
initial state: no timer is ever armed and no batch ever accumulates. -/
theorem disabled_mode_passthrough {T : Type} (cfg : BatchConfig)
    (hd : cfg.enabled = false) :
    (∀ (now : Nat) (item : T) (st : SchedState T),
      addToBatch cfg now item st = (st, [[item]])) ∧
    ∀ tr : List (Nat × Op T),
      (runTrace cfg (initState T) tr).1 = initState T := by
  constructor
  · intro now item st
    unfold addToBatch
    rw [if_pos hd]
  · intro tr
    induction tr with
    | nil => rfl
    | cons head rest ih =>
        obtain ⟨t, op⟩ := head
        show (runTrace cfg (step cfg (initState T) t op).1 rest).1 =
          initState T
        rw [step_disabled_state hd t op]
        exact ih

/-- Witness for C8: a disabled append passes `[[7]]` through and two
disabled appends leave the state initial. -/
theorem disabled_mode_passthrough_witness :
    addToBatch ⟨150, 500, 50, false⟩ 0 (7 : Nat) (initState Nat) =
      (initState Nat, [[7]]) ∧
    (runTrace ⟨150, 500, 50, false⟩ (initState Nat)
        [(0, Op.append 7), (10, Op.append 8)]).1 = initState Nat :=
  ⟨(disabled_mode_passthrough ⟨150, 500, 50, false⟩ rfl).1 0 7
      (initState Nat),
   (disabled_mode_passthrough ⟨150, 500, 50, false⟩ rfl).2
      [(0, Op.append 7), (10, Op.append 8)]⟩

/-- C9: tearing down an enabled scheduler with a non-empty queue performs
exactly one final synchronous flush delivering every queued event and leaves
the fully reset state (both timer refs nulled; the `clearTimeout` calls in
the cleanup effect guarantee the cancelled timers never fire).  In
particular, appending one event from idle and immediately tearing down
yields exactly one `onFlush` call containing that event — whichever of the
append or the teardown performed the flush — and ends in the reset state. -/
theorem teardown_drains_pending {T : Type} (cfg : BatchConfig)
    (he : cfg.enabled = true) :
    (∀ st : SchedState T, st.batchQueue ≠ [] →
      teardown cfg st = (initState T, [st.batchQueue])) ∧
    ∀ (now : Nat) (item : T),
      (addToBatch cfg now item (initState T)).2 ++
          (teardown cfg (addToBatch cfg now item (initState T)).1).2 =
        [[item]] ∧
      (teardown cfg (addToBatch cfg now item (initState T)).1).1 =
        initState T := by
  have hne : ∀ st : SchedState T, st.batchQueue ≠ [] →
      teardown cfg st = (initState T, [st.batchQueue]) := fun st hq => by
    rw [teardown_spec_nonempty he st hq]
    rfl
  refine ⟨hne, fun now item => ?_⟩
  by_cases hsz : cfg.maxBatchSize ≤ 1
  · rw [addToBatch_size he now item (initState T)
      (by simpa [initState] using hsz)]
    rw [teardown_of_empty _ rfl]
    exact ⟨by simp [initState], rfl⟩
  · push_neg at hsz
    rw [addToBatch_small_first he now item (initState T)
      (by simp only [initState, List.length_nil]; omega) rfl]
    by_cases hexp : now + cfg.maxDelay ≤ now
    · rw [scheduleBatchFlush_expired he now now
        (⟨(initState T).batchQueue ++ [item], (initState T).batchTimeout,
          (initState T).maxDelayTimeout, some now⟩ : SchedState T) rfl rfl
        (by simp [initState]) hexp]
      rw [teardown_of_empty _ rfl]
      exact ⟨by simp [initState], rfl⟩
    · push_neg at hexp
      rw [scheduleBatchFlush_arms he now now
        (⟨(initState T).batchQueue ++ [item], (initState T).batchTimeout,
          (initState T).maxDelayTimeout, some now⟩ : SchedState T) rfl rfl
        hexp]
      rw [hne _ (by simp [initState])]
      exact ⟨by simp [initState], rfl⟩

/-- Witness for C9: teardown of a loaded state delivers the whole queue, and
append-then-teardown from idle delivers exactly `[[9]]`. -/
theorem teardown_drains_pending_witness :
    teardown ⟨150, 500, 50, true⟩
        (⟨[5, 6], some 200, some 500, some 0⟩ : SchedState Nat) =
      (initState Nat, [[5, 6]]) ∧
    (addToBatch ⟨150, 500, 50, true⟩ 0 (9 : Nat) (initState Nat)).2 ++
        (teardown ⟨150, 500, 50, true⟩
          (addToBatch ⟨150, 500, 50, true⟩ 0 (9 : Nat)
            (initState Nat)).1).2 = [[9]] :=
  ⟨(teardown_drains_pending ⟨150, 500, 50, true⟩ rfl).1
      (⟨[5, 6], some 200, some 500, some 0⟩ : SchedState Nat) (by decide),
   ((teardown_drains_pending ⟨150, 500, 50, true⟩ rfl).2 0 9).1⟩

/-- C10: with `enabled = false`, `flushBatch` returns immediately — the
`enabled` guard (line 64) precedes the empty-queue check (line 67) — so even
with a non-empty queue the consumer is not invoked and the queue,
`batchStartTime` and both timer refs are all left unchanged; the teardown
flush path, which goes through `flushBatch`, likewise never delivers
anything on a disabled scheduler. -/
theorem disabled_flush_frame {T : Type} (cfg : BatchConfig)
    (hd : cfg.enabled = false) :
    (∀ st : SchedState T, flushBatch cfg st = (st, [])) ∧
    (∀ st : SchedState T, teardown cfg st = (st, [])) := by
  refine ⟨fun st => flushBatch_disabled st hd, fun st => ?_⟩
  unfold teardown
  split
  · exact flushBatch_disabled st hd
  · rfl

/-- Witness for C10: a disabled flush and a disabled teardown of a loaded
state both return it untouched and deliver nothing. -/
theorem disabled_flush_frame_witness :
    flushBatch ⟨150, 500, 50, false⟩
        (⟨[3, 4], some 5, some 9, some 0⟩ : SchedState Nat) =
      ((⟨[3, 4], some 5, some 9, some 0⟩ : SchedState Nat), []) ∧
    teardown ⟨150, 500, 50, false⟩
        (⟨[3, 4], some 5, some 9, some 0⟩ : SchedState Nat) =
      ((⟨[3, 4], some 5, some 9, some 0⟩ : SchedState Nat), []) :=
  ⟨(disabled_flush_frame ⟨150, 500, 50, false⟩ rfl).1
      (⟨[3, 4], some 5, some 9, some 0⟩ : SchedState Nat),
   (disabled_flush_frame ⟨150, 500, 50, false⟩ rfl).2
      (⟨[3, 4], some 5, some 9, some 0⟩ : SchedState Nat)⟩

end BatchedUpdates
